import Mathlib

/-!
Verification development for the Charset browser-extension repository.

The subject of the claims is the Rule Manager of the background script:
identifier allocation (`generateUniqueRuleId`), rule CRUD
(`createCharsetRule`, `removeCharsetRule`, `initializeManager`,
`restoreSavedRules`), the dispatcher entry points (context-menu click
handler and the `updateCharset` runtime message handler), and the
`CharsetStorage` settings helpers (`saveCharsetForSite`,
`getCharsetForSite`, `removeCharsetForSite`).

JavaScript objects and `Map`s are embedded as association lists over
`String` keys (insertion order preserved, keys unique exactly as for JS
objects / `Map`s); the JS `Set` of used rule identifiers is a `Finset ℕ`.
The Declarative Rule Engine is an external collaborator; per the spec its
runtime state is the list of installed dynamic rules, `addRules` appends,
`removeRuleIds` deletes by identifier, and `getDynamicRules` lists them.
The unbounded `while` loop and the unbounded collision recursion of the
source are embedded with an explicit fuel argument together with proofs
that the fuel chosen by the wrappers is always sufficient.
-/

namespace Charset

/-- Resource types named by the rule condition in `createCharsetRule`. -/
inductive ResourceType where
  | main_frame : ResourceType
  | sub_frame : ResourceType
deriving DecidableEq, Repr

/-- One entry of `action.responseHeaders` of a declarativeNetRequest rule. -/
structure HeaderInfo where
  header : String
  operation : String
  value : String
deriving DecidableEq, Repr

/-- The `action` field of a declarativeNetRequest rule. -/
structure RuleAction where
  type : String
  responseHeaders : List HeaderInfo
deriving DecidableEq, Repr

/-- The `condition` field of a declarativeNetRequest rule. -/
structure RuleCondition where
  urlFilter : String
  resourceTypes : List ResourceType
deriving DecidableEq, Repr

/-- A declarativeNetRequest dynamic rule as built by `createCharsetRule`. -/
structure DNRRule where
  id : ℕ
  priority : ℕ
  action : RuleAction
  condition : RuleCondition
deriving DecidableEq, Repr

/-- JS object / `Map` lookup: first entry whose key equals `k`. -/
def mapGet {α : Type} (m : List (String × α)) (k : String) : Option α :=
  (m.find? (fun e => e.1 == k)).map (fun e => e.2)

/-- JS object / `Map` update `m[k] = v`: replace in place if the key is
present, otherwise append. -/
def mapSet {α : Type} (m : List (String × α)) (k : String) (v : α) :
    List (String × α) :=
  if m.any (fun e => e.1 == k) then
    m.map (fun e => if e.1 = k then (k, v) else e)
  else m ++ [(k, v)]

/-- JS `delete m[k]` / `Map.delete`: drop the entry with key `k`. -/
def mapDelete {α : Type} (m : List (String × α)) (k : String) :
    List (String × α) :=
  m.filter (fun e => !(e.1 == k))

/-- `SUPPORTED_CHARSETS` of `background.js` / `utils.js` (its keys; the
values coincide with the keys). -/
def SUPPORTED_CHARSETS : List String :=
  ["UTF-8", "GBK", "GB2312", "GB18030", "Big5", "ISO-8859-1",
   "Windows-1252", "Shift_JIS", "EUC-KR"]

/-- `CharsetStorage.saveCharsetForSite`: read the settings object, set
`settings[hostname] = charset`, write it back. -/
def saveCharsetForSite (settings : List (String × String))
    (hostname charset : String) : List (String × String) :=
  mapSet settings hostname charset

/-- `CharsetStorage.getCharsetForSite`: `settings[hostname] || null`.
The `||` coerces the falsy empty string to `null`, hence the extra test. -/
def getCharsetForSite (settings : List (String × String))
    (hostname : String) : Option String :=
  match mapGet settings hostname with
  | some c => if c = "" then none else some c
  | none => none

/-- `CharsetStorage.removeCharsetForSite`: `delete settings[hostname]`,
write back. -/
def removeCharsetForSite (settings : List (String × String))
    (hostname : String) : List (String × String) :=
  mapDelete settings hostname

section MapLemmas

variable {α : Type}

lemma mapGet_nil (k : String) : mapGet ([] : List (String × α)) k = none := rfl

lemma mapGet_cons (e : String × α) (t : List (String × α)) (k : String) :
    mapGet (e :: t) k = if e.1 = k then some e.2 else mapGet t k := by
  by_cases he : e.1 = k
  · simp [mapGet, List.find?, he]
  · have he' : (e.1 == k) = false := by simp [he]
    simp [mapGet, List.find?, he', he]

lemma mapDelete_cons (e : String × α) (t : List (String × α)) (k : String) :
    mapDelete (e :: t) k =
      if e.1 = k then mapDelete t k else e :: mapDelete t k := by
  by_cases he : e.1 = k
  · simp [mapDelete, List.filter_cons, he]
  · simp [mapDelete, List.filter_cons, he]

lemma mapSet_of_absent (m : List (String × α)) (k : String) (v : α)
    (h : m.any (fun e => e.1 == k) = false) :
    mapSet m k v = m ++ [(k, v)] := by
  simp [mapSet, h]

lemma mapGet_map_subst_self (m : List (String × α)) (k : String) (v : α)
    (h : m.any (fun e => e.1 == k) = true) :
    mapGet (m.map (fun e => if e.1 = k then (k, v) else e)) k = some v := by
  induction m with
  | nil => simp at h
  | cons e t ih =>
      by_cases he : e.1 = k
      · simp [List.map_cons, mapGet_cons, he]
      · have he' : (e.1 == k) = false := by simp [he]
        have ht : t.any (fun e => e.1 == k) = true := by
          simpa [List.any_cons, he'] using h
        simpa [List.map_cons, mapGet_cons, he] using ih ht

lemma mapGet_append_absent (m : List (String × α)) (k : String) (v : α)
    (h : m.any (fun e => e.1 == k) = false) :
    mapGet (m ++ [(k, v)]) k = some v := by
  induction m with
  | nil => simp [mapGet_cons]
  | cons e t ih =>
      have he' : (e.1 == k) = false := by
        cases hb : (e.1 == k) <;> simp_all [List.any_cons]
      have he : ¬ e.1 = k := by simpa using he'
      have ht : t.any (fun e => e.1 == k) = false := by
        simpa [List.any_cons, he'] using h
      simpa [List.cons_append, mapGet_cons, he] using ih ht

lemma mapGet_mapSet_self (m : List (String × α)) (k : String) (v : α) :
    mapGet (mapSet m k v) k = some v := by
  unfold mapSet
  by_cases h : m.any (fun e => e.1 == k) = true
  · simpa [h] using mapGet_map_subst_self m k v h
  · have h' : m.any (fun e => e.1 == k) = false := by
      cases hb : m.any (fun e => e.1 == k) <;> simp_all
    simpa [h'] using mapGet_append_absent m k v h'

lemma mapGet_map_subst_ne (m : List (String × α)) (k k' : String) (v : α)
    (h : k' ≠ k) :
    mapGet (m.map (fun e => if e.1 = k then (k, v) else e)) k' = mapGet m k' := by
  induction m with
  | nil => rfl
  | cons e t ih =>
      by_cases he : e.1 = k
      · rw [List.map_cons, mapGet_cons, mapGet_cons]
        simp only [he, if_true]
        simpa [Ne.symm h] using ih
      · rw [List.map_cons, mapGet_cons, mapGet_cons]
        simp only [he, if_false]
        by_cases he3 : e.1 = k'
        · rw [if_pos he3, if_pos he3]
        · rw [if_neg he3, if_neg he3]
          exact ih

lemma mapGet_append_single_ne (m : List (String × α)) (k k' : String) (v : α)
    (h : k' ≠ k) : mapGet (m ++ [(k, v)]) k' = mapGet m k' := by
  induction m with
  | nil => simp [mapGet_cons, Ne.symm h]
  | cons e t ih =>
      by_cases he3 : e.1 = k'
      · simp [List.cons_append, mapGet_cons, he3]
      · simpa [List.cons_append, mapGet_cons, he3] using ih

lemma mapGet_mapSet_ne (m : List (String × α)) (k k' : String) (v : α)
    (h : k' ≠ k) : mapGet (mapSet m k v) k' = mapGet m k' := by
  unfold mapSet
  by_cases hany : m.any (fun e => e.1 == k) = true
  · simpa [hany] using mapGet_map_subst_ne m k k' v h
  · have h' : m.any (fun e => e.1 == k) = false := by
      cases hb : m.any (fun e => e.1 == k) <;> simp_all
    simpa [h'] using mapGet_append_single_ne m k k' v h

lemma mapGet_mapDelete_self (m : List (String × α)) (k : String) :
    mapGet (mapDelete m k) k = none := by
  induction m with
  | nil => rfl
  | cons e t ih =>
      by_cases he : e.1 = k
      · simpa [mapDelete_cons, he] using ih
      · simpa [mapDelete_cons, mapGet_cons, he] using ih

lemma mapGet_mapDelete_ne (m : List (String × α)) (k k' : String)
    (h : k' ≠ k) : mapGet (mapDelete m k) k' = mapGet m k' := by
  induction m with
  | nil => rfl
  | cons e t ih =>
      by_cases he : e.1 = k
      · have he2 : ¬ (e.1 = k') := by rw [he]; exact Ne.symm h
        rw [mapDelete_cons, if_pos he, mapGet_cons, if_neg he2]
        exact ih
      · rw [mapDelete_cons, if_neg he, mapGet_cons, mapGet_cons]
        by_cases he3 : e.1 = k'
        · rw [if_pos he3, if_pos he3]
        · rw [if_neg he3, if_neg he3]
          exact ih

lemma mapGet_some_mem (m : List (String × α)) (k : String) (v : α)
    (h : mapGet m k = some v) : (k, v) ∈ m := by
  induction m with
  | nil => simp [mapGet] at h
  | cons e t ih =>
      by_cases he : e.1 = k
      · have hv : e.2 = v := by
          simpa [mapGet_cons, he] using h
        have : e = (k, v) := by
          cases e; simp_all
        simp [this]
      · have : mapGet t k = some v := by
          simpa [mapGet_cons, he] using h
        exact List.mem_cons_of_mem _ (ih this)

lemma mem_nodup_fst {m : List (String × α)} {k : String} {v₁ v₂ : α}
    (hnd : (m.map Prod.fst).Nodup) (h₁ : (k, v₁) ∈ m) (h₂ : (k, v₂) ∈ m) :
    v₁ = v₂ := by
  induction m with
  | nil => simp at h₁
  | cons e t ih =>
      simp only [List.map_cons, List.nodup_cons] at hnd
      rcases List.mem_cons.mp h₁ with h₁ | h₁ <;>
        rcases List.mem_cons.mp h₂ with h₂ | h₂
      · rw [← h₁] at h₂; cases h₂; rfl
      · exfalso
        exact hnd.1 (by simpa [← h₁] using List.mem_map_of_mem Prod.fst h₂)
      · exfalso
        exact hnd.1 (by simpa [← h₂] using List.mem_map_of_mem Prod.fst h₁)
      · exact ih hnd.2 h₁ h₂

end MapLemmas

/-- In-memory state of `RuleManager` (constructor fields): `ruleIdCounter`,
`activeRules : Map hostname → ruleId`, `usedRuleIds : Set`. -/
structure RMState where
  ruleIdCounter : ℕ
  activeRules : List (String × ℕ)
  usedRuleIds : Finset ℕ
deriving DecidableEq

/-- `chrome.storage.local` keys used by the background script:
`charset_settings` (hostname → charset intent) and `active_rules`
(snapshot of `activeRules.entries()`). -/
structure StoreState where
  charsetSettings : List (String × String)
  activeRulesSnapshot : List (String × ℕ)
deriving DecidableEq

/-- Whole-system state. `engine` is the Declarative Rule Engine's list of
installed dynamic rules (modelled from the spec: the engine is an external
collaborator holding rules addressed by integer identifier; `addRules`
appends, `removeRuleIds` deletes by id, `getDynamicRules` lists). -/
structure Sys where
  engine : List DNRRule
  rm : RMState
  store : StoreState
deriving DecidableEq

/-- `new RuleManager()`: counter 1, empty map, empty set. -/
def rmInit : RMState := { ruleIdCounter := 1, activeRules := [], usedRuleIds := ∅ }

/-- `getAllRuleIds` / `rules.map(rule => rule.id)`. -/
def engineRuleIds (engine : List DNRRule) : List ℕ :=
  engine.map (fun r => r.id)

/-- The engine contract's `listRules`, i.e. `getDynamicRules`. -/
def listRules (s : Sys) : List DNRRule := s.engine

/-- The url filter string built by `createCharsetRule`:
"*://" + hostname + "/*". -/
def mkUrlFilter (hostname : String) : String :=
  "*://" ++ hostname ++ "/*"

/-- The rule object literal of `createCharsetRule`. -/
def buildRule (ruleId : ℕ) (hostname charset : String) : DNRRule :=
  { id := ruleId
    priority := 1
    action :=
      { type := "modifyHeaders"
        responseHeaders :=
          [{ header := "Content-Type"
             operation := "set"
             value := "text/html; charset=" ++ charset }] }
    condition :=
      { urlFilter := mkUrlFilter hostname
        resourceTypes := [ResourceType.main_frame, ResourceType.sub_frame] } }

/-- The `while (usedRuleIds.has(ruleIdCounter)) ruleIdCounter++` loop of
`generateUniqueRuleId`, with explicit fuel; `skipUsed_not_mem` shows that
the fuel passed by `generateUniqueRuleId` always suffices. -/
def skipUsed (used : Finset ℕ) : ℕ → ℕ → ℕ
  | 0, c => c
  | fuel + 1, c => if c ∈ used then skipUsed used fuel (c + 1) else c

/-- `generateUniqueRuleId`: advance the counter past every in-use value,
claim the result (post-increment and add to the in-use set). -/
def generateUniqueRuleId (rm : RMState) : ℕ × RMState :=
  let ruleId := skipUsed rm.usedRuleIds (rm.usedRuleIds.card + 1) rm.ruleIdCounter
  (ruleId,
    { rm with
        ruleIdCounter := ruleId + 1
        usedRuleIds := insert ruleId rm.usedRuleIds })

/-- `usedRuleIds.delete(ruleId)` as performed by `removeCharsetRule`. -/
def releaseRuleId (rm : RMState) (ruleId : ℕ) : RMState :=
  { rm with usedRuleIds := rm.usedRuleIds.erase ruleId }

/-- `removeCharsetRule(hostname)`: if an active rule is tracked for the
hostname, remove it from the engine, delete the id from `usedRuleIds`,
delete the map entry, persist the snapshot, return `true`; otherwise
return `false` (no mutation). -/
def removeCharsetRule (s : Sys) (hostname : String) : Bool × Sys :=
  match mapGet s.rm.activeRules hostname with
  | some ruleId =>
      let engine' := s.engine.filter (fun r => !(r.id == ruleId))
      let active' := mapDelete s.rm.activeRules hostname
      (true,
        { engine := engine'
          rm := { ruleIdCounter := s.rm.ruleIdCounter
                  activeRules := active'
                  usedRuleIds := s.rm.usedRuleIds.erase ruleId }
          store := { s.store with activeRulesSnapshot := active' } })
  | none => (false, s)

/-- Body of `createCharsetRule(hostname, charset)` with explicit fuel for
the identifier-collision recursion (`return await this.createCharsetRule(...)`,
which in the source has no depth bound). The third component counts the
collision retries performed. -/
def createCharsetRuleAux (hostname charset : String) :
    ℕ → Sys → Option ℕ × Sys × ℕ
  | 0, s => (none, s, 0)
  | fuel + 1, s =>
      let s₁ := (removeCharsetRule s hostname).2
      let ruleId := (generateUniqueRuleId s₁.rm).1
      let s₂ : Sys := { s₁ with rm := (generateUniqueRuleId s₁.rm).2 }
      if s₂.engine.any (fun r => r.id == ruleId) then
        let rec' := createCharsetRuleAux hostname charset fuel s₂
        (rec'.1, rec'.2.1, rec'.2.2 + 1)
      else
        let rule := buildRule ruleId hostname charset
        let active' := mapSet s₂.rm.activeRules hostname ruleId
        (some ruleId,
          { engine := s₂.engine ++ [rule]
            rm := { s₂.rm with activeRules := active' }
            store := { s₂.store with activeRulesSnapshot := active' } },
          0)

/-- `createCharsetRule`: the fuel `engine.length + 1` is proved sufficient
(`createCharsetRuleAux_succeeds`), so this wrapper computes exactly the
source's unbounded recursion. -/
def createCharsetRule (s : Sys) (hostname charset : String) :
    Option ℕ × Sys × ℕ :=
  createCharsetRuleAux hostname charset (s.engine.length + 1) s

/-- `initialize()`: list all engine rule ids, remove them all, reset the
counter, the active-rule map and the in-use set. The persisted store is
not touched. -/
def initializeManager (s : Sys) : Sys :=
  let existingRuleIds := engineRuleIds s.engine
  let engine' :=
    if existingRuleIds.length > 0 then
      s.engine.filter (fun r => !(existingRuleIds.any (fun x => x == r.id)))
    else s.engine
  { engine := engine', rm := rmInit, store := s.store }

/-- `restoreSavedRules()`: `initialize()`, then one `createCharsetRule`
per persisted hostname→charset entry, counting the non-null results. -/
def restoreSavedRules (s : Sys) : ℕ × Sys :=
  let s₀ := initializeManager s
  s₀.store.charsetSettings.foldl
    (fun acc entry =>
      let r := createCharsetRule acc.2 entry.1 entry.2
      (acc.1 + (if r.1.isSome then 1 else 0), r.2.1))
    (0, s₀)

/-- The `updateCharset` branch of the `chrome.runtime.onMessage` listener:
`createCharsetRule`, then `saveCharsetForSite`, then
`sendResponse({success: true})` — with no validation of the inputs. -/
def handleUpdateCharsetMessage (s : Sys) (hostname charset : String) :
    Sys × Bool :=
  let r := createCharsetRule s hostname charset
  let s' := r.2.1
  ({ s' with
      store := { s'.store with
        charsetSettings :=
          saveCharsetForSite s'.store.charsetSettings hostname charset } },
    true)

/-- The charset branch of `handleMenuClick`: guarded by
`if (SUPPORTED_CHARSETS[charset])`; on an unsupported label nothing runs. -/
def handleMenuCharsetClick (s : Sys) (hostname charset : String) : Sys :=
  if charset ∈ SUPPORTED_CHARSETS then
    let r := createCharsetRule s hostname charset
    let s' := r.2.1
    { s' with
        store := { s'.store with
          charsetSettings :=
            saveCharsetForSite s'.store.charsetSettings hostname charset } }
  else s

section AllocatorLemmas

lemma skipUsed_ge (used : Finset ℕ) :
    ∀ fuel c, c ≤ skipUsed used fuel c := by
  intro fuel
  induction fuel with
  | zero => intro c; simp [skipUsed]
  | succ f ih =>
      intro c
      by_cases hc : c ∈ used
      · have := ih (c + 1)
        calc c ≤ c + 1 := Nat.le_succ c
          _ ≤ skipUsed used f (c + 1) := this
          _ = skipUsed used (f + 1) c := by simp [skipUsed, hc]
      · simp [skipUsed, hc]

lemma skipUsed_not_mem (used : Finset ℕ) :
    ∀ fuel c, (used.filter (fun x => c ≤ x)).card < fuel →
      skipUsed used fuel c ∉ used := by
  intro fuel
  induction fuel with
  | zero => intro c h; exact absurd h (by simp)
  | succ f ih =>
      intro c h
      by_cases hc : c ∈ used
      · have hmem : c ∈ used.filter (fun x => c ≤ x) := by
          simp [Finset.mem_filter, hc]
        have hsub : used.filter (fun x => c + 1 ≤ x) ⊆
            (used.filter (fun x => c ≤ x)).erase c := by
          intro x hx
          rcases Finset.mem_filter.mp hx with ⟨hxu, hxle⟩
          refine Finset.mem_erase.mpr ⟨?_, Finset.mem_filter.mpr ⟨hxu, ?_⟩⟩
          · omega
          · omega
        have hcard : (used.filter (fun x => c + 1 ≤ x)).card < f := by
          have h₁ := Finset.card_le_card hsub
          have h₂ : ((used.filter (fun x => c ≤ x)).erase c).card =
              (used.filter (fun x => c ≤ x)).card - 1 :=
            Finset.card_erase_of_mem hmem
          have h₃ : 1 ≤ (used.filter (fun x => c ≤ x)).card :=
            Finset.card_pos.mpr ⟨c, hmem⟩
          omega
        have := ih (c + 1) hcard
        simpa [skipUsed, hc] using this
      · simp [skipUsed, hc]

lemma skipUsed_eq_of_not_mem (used : Finset ℕ) (fuel c : ℕ)
    (h : c ∉ used) : skipUsed used (fuel + 1) c = c := by
  simp [skipUsed, h]

/-- `generateUniqueRuleId` always returns an identifier that is not in the
in-use set: the fuel `card + 1` dominates the loop. -/
lemma generateUniqueRuleId_fresh (rm : RMState) :
    (generateUniqueRuleId rm).1 ∉ rm.usedRuleIds := by
  have hb : (rm.usedRuleIds.filter
      (fun x => rm.ruleIdCounter ≤ x)).card < rm.usedRuleIds.card + 1 := by
    have := Finset.card_filter_le rm.usedRuleIds (fun x => rm.ruleIdCounter ≤ x)
    omega
  exact skipUsed_not_mem rm.usedRuleIds _ _ hb

lemma generateUniqueRuleId_ge (rm : RMState) :
    rm.ruleIdCounter ≤ (generateUniqueRuleId rm).1 :=
  skipUsed_ge rm.usedRuleIds _ _

lemma generateUniqueRuleId_state (rm : RMState) :
    (generateUniqueRuleId rm).2 =
      { rm with
          ruleIdCounter := (generateUniqueRuleId rm).1 + 1
          usedRuleIds := insert (generateUniqueRuleId rm).1 rm.usedRuleIds } :=
  rfl

end AllocatorLemmas

/-- Allocator-level operations: `alloc` is `generateUniqueRuleId`, `rel id`
is the `usedRuleIds.delete(id)` performed when a rule is destroyed. -/
inductive AllocOp where
  | alloc : AllocOp
  | rel : ℕ → AllocOp

/-- One allocator operation acting on the manager state. -/
def allocStep (rm : RMState) : AllocOp → RMState
  | AllocOp.alloc => (generateUniqueRuleId rm).2
  | AllocOp.rel ruleId => releaseRuleId rm ruleId

/-- Run a sequence of allocate/release operations, recording, for every
allocate, the identifier returned together with the in-use set at the
moment of the call. -/
def allocTrace (rm : RMState) : List AllocOp → List (ℕ × Finset ℕ)
  | [] => []
  | AllocOp.alloc :: ops =>
      ((generateUniqueRuleId rm).1, rm.usedRuleIds) ::
        allocTrace (allocStep rm AllocOp.alloc) ops
  | AllocOp.rel ruleId :: ops => allocTrace (allocStep rm (AllocOp.rel ruleId)) ops

lemma allocTrace_spec (ops : List AllocOp) :
    ∀ rm : RMState,
      (allocTrace rm ops).Forall
        (fun p => p.1 ∉ p.2 ∧ rm.ruleIdCounter ≤ p.1) ∧
      ((allocTrace rm ops).map Prod.fst).Pairwise (· < ·) := by
  induction ops with
  | nil => intro rm; constructor <;> simp [allocTrace]
  | cons op ops ih =>
      intro rm
      cases op with
      | alloc =>
          rcases ih (allocStep rm AllocOp.alloc) with ⟨hF, hP⟩
          have hcnt : (allocStep rm AllocOp.alloc).ruleIdCounter =
              (generateUniqueRuleId rm).1 + 1 := rfl
          constructor
          · rw [allocTrace]
            rw [List.forall_cons]
            refine ⟨⟨generateUniqueRuleId_fresh rm, generateUniqueRuleId_ge rm⟩, ?_⟩
            refine List.Forall.imp ?_ hF
            intro p hp
            refine ⟨hp.1, ?_⟩
            have := hp.2
            rw [hcnt] at this
            have hge := generateUniqueRuleId_ge rm
            omega
          · rw [allocTrace, List.map_cons]
            refine List.Pairwise.cons ?_ hP
            intro b hb
            rcases List.mem_map.mp hb with ⟨p, hpmem, hpb⟩
            have hall := (List.forall_iff_forall_mem.mp hF) p hpmem
            have := hall.2
            rw [hcnt] at this
            omega
      | rel ruleId =>
          rcases ih (allocStep rm (AllocOp.rel ruleId)) with ⟨hF, hP⟩
          constructor
          · rw [allocTrace]
            refine List.Forall.imp ?_ hF
            intro p hp
            exact ⟨hp.1, hp.2⟩
          · rw [allocTrace]
            exact hP

/-- C10 counterexample: saving the empty-string charset and reading it back
yields `null`, not the saved value, because `settings[hostname] || null`
coerces the falsy empty string to `null`. -/
theorem c10_save_get_empty_charset :
    getCharsetForSite (saveCharsetForSite [] "a.com" "") "a.com" = none ∧
    getCharsetForSite (saveCharsetForSite [] "a.com" "") "a.com" ≠ some "" := by
  constructor
  · rfl
  · decide

/-- C10 (amended): for every hostname and every NON-EMPTY charset, save
followed by get returns the charset and leaves every other hostname's
entry unchanged; remove followed by get returns `null` and leaves other
hostnames unchanged; get of a hostname with no entry returns `null`. -/
theorem c10_storage_roundtrip (settings : List (String × String))
    (hostname charset : String) (hc : charset ≠ "") :
    getCharsetForSite (saveCharsetForSite settings hostname charset) hostname
        = some charset ∧
    (∀ h₂, h₂ ≠ hostname →
      getCharsetForSite (saveCharsetForSite settings hostname charset) h₂
        = getCharsetForSite settings h₂) ∧
    getCharsetForSite (removeCharsetForSite settings hostname) hostname = none ∧
    (∀ h₂, h₂ ≠ hostname →
      getCharsetForSite (removeCharsetForSite settings hostname) h₂
        = getCharsetForSite settings h₂) ∧
    (mapGet settings hostname = none →
      getCharsetForSite settings hostname = none) := by
  refine ⟨?_, ?_, ?_, ?_, ?_⟩
  · unfold getCharsetForSite saveCharsetForSite
    rw [mapGet_mapSet_self]
    simp [hc]
  · intro h₂ hne
    unfold getCharsetForSite saveCharsetForSite
    rw [mapGet_mapSet_ne _ _ _ _ hne]
  · unfold getCharsetForSite removeCharsetForSite
    rw [mapGet_mapDelete_self]
  · intro h₂ hne
    unfold getCharsetForSite removeCharsetForSite
    rw [mapGet_mapDelete_ne _ _ _ hne]
  · intro h
    unfold getCharsetForSite
    rw [h]

/-- Witness for `c10_storage_roundtrip` at a concrete store. -/
theorem c10_storage_roundtrip_witness :
    getCharsetForSite
        (saveCharsetForSite [("b.com", "GBK")] "a.com" "UTF-8") "a.com"
      = some "UTF-8" ∧
    getCharsetForSite
        (saveCharsetForSite [("b.com", "GBK")] "a.com" "UTF-8") "b.com"
      = getCharsetForSite [("b.com", "GBK")] "b.com" ∧
    getCharsetForSite
        (removeCharsetForSite [("b.com", "GBK")] "a.com") "a.com" = none := by
  have h := c10_storage_roundtrip [("b.com", "GBK")] "a.com" "UTF-8" (by decide)
  exact ⟨h.1, h.2.1 "b.com" (by decide), h.2.2.1⟩

/-- C3: in every allocate/release sequence started from the constructor
state, every `allocate` returns an identifier not currently in the in-use
set, the identifiers returned by successive allocates are strictly
increasing (so no identifier — released or not — is ever issued twice, and
no two simultaneously active rules share one), and `release` removes the
identifier from the in-use set leaving the monotone counter untouched. -/
theorem c3_allocator_unique_ids (ops : List AllocOp) :
    (allocTrace rmInit ops).Forall (fun p => p.1 ∉ p.2) ∧
    ((allocTrace rmInit ops).map Prod.fst).Pairwise (· < ·) ∧
    (∀ rm ruleId, (releaseRuleId rm ruleId).usedRuleIds
        = rm.usedRuleIds.erase ruleId ∧
      (releaseRuleId rm ruleId).ruleIdCounter = rm.ruleIdCounter) := by
  rcases allocTrace_spec ops rmInit with ⟨hF, hP⟩
  exact ⟨List.Forall.imp (fun p hp => hp.1) hF, hP, fun rm ruleId => ⟨rfl, rfl⟩⟩

lemma Sys_ext (a b : Sys) (he : a.engine = b.engine) (hr : a.rm = b.rm)
    (hs : a.store = b.store) : a = b := by
  cases a; cases b; simp_all

lemma initializeManager_engine (s : Sys) :
    (initializeManager s).engine = [] := by
  unfold initializeManager
  by_cases hl : (engineRuleIds s.engine).length > 0
  · simp only [hl, if_true]
    apply List.filter_eq_nil_iff.mpr
    intro r hr
    have hmem : (engineRuleIds s.engine).any (fun x => x == r.id) = true :=
      List.any_eq_true.mpr ⟨r.id, List.mem_map_of_mem _ hr, by simp⟩
    simp [hmem]
  · have h0 : s.engine = [] := by
      have : (engineRuleIds s.engine).length = 0 := by omega
      unfold engineRuleIds at this
      simpa using this
    simp [hl, h0]

lemma initializeManager_eq (s : Sys) :
    initializeManager s = { engine := [], rm := rmInit, store := s.store } :=
  Sys_ext _ _ (initializeManager_engine s) rfl rfl

/-- C4: for every prior system state, `initialize()` removes every rule the
engine reports as installed (listing the engine afterwards yields the empty
set) and resets the counter, the in-use identifier set and the in-memory
hostname→id map. -/
theorem c4_initialize_clears_everything (s : Sys) :
    listRules (initializeManager s) = [] ∧
    (initializeManager s).rm.ruleIdCounter = 1 ∧
    (initializeManager s).rm.usedRuleIds = ∅ ∧
    (initializeManager s).rm.activeRules = [] :=
  ⟨initializeManager_engine s, rfl, rfl, rfl⟩

/-- C5: with persisted intent a.com→GBK, b.com→UTF-8, `restoreSavedRules`
reports two successes and leaves the engine holding exactly the two
matching rules, whatever stale rules the engine previously held and
whatever the manager's in-memory state was. -/
theorem c5_restore_installs_intent (E : List DNRRule) (rm : RMState)
    (snap : List (String × ℕ)) :
    (restoreSavedRules
        ⟨E, rm, ⟨[("a.com", "GBK"), ("b.com", "UTF-8")], snap⟩⟩).1 = 2 ∧
    (restoreSavedRules
        ⟨E, rm, ⟨[("a.com", "GBK"), ("b.com", "UTF-8")], snap⟩⟩).2.engine
      = [buildRule 1 "a.com" "GBK", buildRule 2 "b.com" "UTF-8"] := by
  simp only [restoreSavedRules]
  rw [initializeManager_eq]
  exact ⟨rfl, rfl⟩

/-- C6: `removeCharsetRule` with no tracked rule for the hostname returns
`false` and leaves the whole state untouched; with a tracked rule it
returns `true`, removes the rule from the engine, releases the identifier,
deletes the in-memory map entry and the persisted active-rule snapshot
entry, and does not touch the persisted charset intent. -/
theorem c6_remove_rule_semantics (s : Sys) (hostname : String) :
    (mapGet s.rm.activeRules hostname = none →
      removeCharsetRule s hostname = (false, s)) ∧
    (∀ ruleId, mapGet s.rm.activeRules hostname = some ruleId →
      (removeCharsetRule s hostname).1 = true ∧
      mapGet (removeCharsetRule s hostname).2.rm.activeRules hostname = none ∧
      ruleId ∉ (removeCharsetRule s hostname).2.rm.usedRuleIds ∧
      (∀ r ∈ (removeCharsetRule s hostname).2.engine, r.id ≠ ruleId) ∧
      mapGet (removeCharsetRule s hostname).2.store.activeRulesSnapshot hostname
        = none ∧
      (removeCharsetRule s hostname).2.store.charsetSettings
        = s.store.charsetSettings) := by
  constructor
  · intro h
    simp [removeCharsetRule, h]
  · intro ruleId h
    refine ⟨?_, ?_, ?_, ?_, ?_, ?_⟩
    · simp [removeCharsetRule, h]
    · simp only [removeCharsetRule, h]
      exact mapGet_mapDelete_self _ _
    · simp only [removeCharsetRule, h]
      exact Finset.not_mem_erase _ _
    · simp only [removeCharsetRule, h]
      intro r hr
      rcases List.mem_filter.mp hr with ⟨_, hpred⟩
      intro hid
      simp [hid] at hpred
    · simp only [removeCharsetRule, h]
      exact mapGet_mapDelete_self _ _
    · simp [removeCharsetRule, h]

/-- A concrete system state holding one active rule for a.com. -/
def sysA : Sys :=
  { engine := [buildRule 1 "a.com" "GBK"]
    rm := { ruleIdCounter := 2, activeRules := [("a.com", 1)], usedRuleIds := {1} }
    store := { charsetSettings := [("a.com", "GBK")]
               activeRulesSnapshot := [("a.com", 1)] } }

/-- Witness for `c6_remove_rule_semantics`: both branches at `sysA`. -/
theorem c6_remove_rule_semantics_witness :
    removeCharsetRule sysA "b.com" = (false, sysA) ∧
    (removeCharsetRule sysA "a.com").1 = true ∧
    mapGet (removeCharsetRule sysA "a.com").2.rm.activeRules "a.com" = none ∧
    1 ∉ (removeCharsetRule sysA "a.com").2.rm.usedRuleIds ∧
    mapGet (removeCharsetRule sysA "a.com").2.store.activeRulesSnapshot "a.com"
      = none := by
  have h₁ := (c6_remove_rule_semantics sysA "b.com").1 (by decide)
  have h₂ := (c6_remove_rule_semantics sysA "a.com").2 1 (by decide)
  exact ⟨h₁, h₂.1, h₂.2.1, h₂.2.2.1, h₂.2.2.2.2.1⟩

/-- State after the removal phase of `createCharsetRule`. -/
def afterRemove (s : Sys) (hostname : String) : Sys :=
  (removeCharsetRule s hostname).2

/-- Identifier generated in the current `createCharsetRule` attempt. -/
def nextRid (s : Sys) (hostname : String) : ℕ :=
  (generateUniqueRuleId (afterRemove s hostname).rm).1

/-- State after removal and identifier generation in the current attempt. -/
def afterGen (s : Sys) (hostname : String) : Sys :=
  { afterRemove s hostname with
      rm := (generateUniqueRuleId (afterRemove s hostname).rm).2 }

lemma createCharsetRuleAux_succ_eq (hn c : String) (f : ℕ) (s : Sys) :
    createCharsetRuleAux hn c (f + 1) s =
      if (afterGen s hn).engine.any (fun r => r.id == nextRid s hn) then
        ((createCharsetRuleAux hn c f (afterGen s hn)).1,
         (createCharsetRuleAux hn c f (afterGen s hn)).2.1,
         (createCharsetRuleAux hn c f (afterGen s hn)).2.2 + 1)
      else
        (some (nextRid s hn),
          { engine := (afterGen s hn).engine ++ [buildRule (nextRid s hn) hn c]
            rm := { (afterGen s hn).rm with
                      activeRules :=
                        mapSet (afterGen s hn).rm.activeRules hn (nextRid s hn) }
            store := { (afterGen s hn).store with
                      activeRulesSnapshot :=
                        mapSet (afterGen s hn).rm.activeRules hn (nextRid s hn) } },
          0) := rfl

lemma afterGen_engine (s : Sys) (hn : String) :
    (afterGen s hn).engine = (afterRemove s hn).engine := rfl

lemma afterGen_used (s : Sys) (hn : String) :
    (afterGen s hn).rm.usedRuleIds
      = insert (nextRid s hn) (afterRemove s hn).rm.usedRuleIds := rfl

lemma afterGen_counter (s : Sys) (hn : String) :
    (afterGen s hn).rm.ruleIdCounter = nextRid s hn + 1 := rfl

lemma afterGen_active (s : Sys) (hn : String) :
    (afterGen s hn).rm.activeRules = (afterRemove s hn).rm.activeRules := rfl

lemma afterGen_store (s : Sys) (hn : String) :
    (afterGen s hn).store = (afterRemove s hn).store := rfl

lemma nextRid_fresh (s : Sys) (hn : String) :
    nextRid s hn ∉ (afterRemove s hn).rm.usedRuleIds :=
  generateUniqueRuleId_fresh _

lemma nextRid_ge (s : Sys) (hn : String) :
    (afterRemove s hn).rm.ruleIdCounter ≤ nextRid s hn :=
  generateUniqueRuleId_ge _

/-- C8's invariant: every identifier in the allocator's in-use set is
installed in the engine. -/
def usedSubEngine (s : Sys) : Prop :=
  s.rm.usedRuleIds ⊆ (engineRuleIds s.engine).toFinset

lemma mem_engineRuleIds_toFinset {E : List DNRRule} {x : ℕ} :
    x ∈ (engineRuleIds E).toFinset ↔ ∃ r ∈ E, r.id = x := by
  unfold engineRuleIds
  simp [List.mem_toFinset]

lemma usedSubEngine_remove (s : Sys) (hn : String) (hs : usedSubEngine s) :
    usedSubEngine (removeCharsetRule s hn).2 := by
  unfold removeCharsetRule
  cases hget : mapGet s.rm.activeRules hn with
  | none => simpa [hget] using hs
  | some ruleId =>
      simp only [hget]
      intro x hx
      rcases Finset.mem_erase.mp hx with ⟨hne, hxu⟩
      rcases mem_engineRuleIds_toFinset.mp (hs hxu) with ⟨r, hr, hrid⟩
      refine mem_engineRuleIds_toFinset.mpr ⟨r, ?_, hrid⟩
      refine List.mem_filter.mpr ⟨hr, ?_⟩
      simp [hrid, hne]

lemma usedSubEngine_afterGen_of_conflict (s : Sys) (hn : String)
    (hs : usedSubEngine s)
    (hconf : (afterGen s hn).engine.any (fun r => r.id == nextRid s hn) = true) :
    usedSubEngine (afterGen s hn) := by
  have h₁ : usedSubEngine (afterRemove s hn) := usedSubEngine_remove s hn hs
  intro x hx
  rw [afterGen_used] at hx
  rcases Finset.mem_insert.mp hx with hx | hx
  · rcases List.any_eq_true.mp hconf with ⟨r, hr, hrid⟩
    rw [afterGen_engine]
    refine mem_engineRuleIds_toFinset.mpr ⟨r, hr, ?_⟩
    rw [hx]
    simpa using hrid
  · rw [afterGen_engine]
    exact h₁ hx

lemma usedSubEngine_aux (hn c : String) :
    ∀ (fuel : ℕ) (s : Sys), usedSubEngine s →
      usedSubEngine (createCharsetRuleAux hn c fuel s).2.1 := by
  intro fuel
  induction fuel with
  | zero =>
      intro s hs
      simpa [createCharsetRuleAux] using hs
  | succ f ih =>
      intro s hs
      rw [createCharsetRuleAux_succ_eq]
      by_cases hconf :
          (afterGen s hn).engine.any (fun r => r.id == nextRid s hn) = true
      · rw [if_pos hconf]
        exact ih (afterGen s hn) (usedSubEngine_afterGen_of_conflict s hn hs hconf)
      · rw [if_neg hconf]
        have h₁ : usedSubEngine (afterRemove s hn) := usedSubEngine_remove s hn hs
        intro x hx
        have hx' : x ∈ (afterGen s hn).rm.usedRuleIds := hx
        rw [afterGen_used] at hx'
        rcases Finset.mem_insert.mp hx' with hx' | hx'
        · refine mem_engineRuleIds_toFinset.mpr
            ⟨buildRule (nextRid s hn) hn c, ?_, by simp [buildRule, hx']⟩
          simp
        · rcases mem_engineRuleIds_toFinset.mp (h₁ hx') with ⟨r, hr, hrid⟩
          refine mem_engineRuleIds_toFinset.mpr ⟨r, ?_, hrid⟩
          rw [afterGen_engine] at *
          exact List.mem_append_left _ hr

lemma usedSubEngine_create (s : Sys) (hn c : String) (hs : usedSubEngine s) :
    usedSubEngine (createCharsetRule s hn c).2.1 :=
  usedSubEngine_aux hn c _ s hs

lemma usedSubEngine_init (s : Sys) : usedSubEngine (initializeManager s) := by
  intro x hx
  have : x ∈ (∅ : Finset ℕ) := hx
  simp at this

lemma usedSubEngine_restore (s : Sys) :
    usedSubEngine (restoreSavedRules s).2 := by
  unfold restoreSavedRules
  have hbase : usedSubEngine (initializeManager s) := usedSubEngine_init s
  have : ∀ (l : List (String × String)) (acc : ℕ × Sys), usedSubEngine acc.2 →
      usedSubEngine (l.foldl
        (fun acc entry =>
          let r := createCharsetRule acc.2 entry.1 entry.2
          (acc.1 + (if r.1.isSome then 1 else 0), r.2.1)) acc).2 := by
    intro l
    induction l with
    | nil => intro acc h; simpa using h
    | cons e t iht =>
        intro acc h
        rw [List.foldl_cons]
        exact iht _ (usedSubEngine_create acc.2 e.1 e.2 h)
  exact this (initializeManager s).store.charsetSettings
    (0, initializeManager s) hbase

/-- Rule Manager operations as dispatched by the background script. -/
inductive MgrOp where
  | create : String → String → MgrOp
  | remove : String → MgrOp
  | initOp : MgrOp
  | restore : MgrOp

/-- One Rule Manager operation acting on the system state. -/
def applyMgrOp (s : Sys) : MgrOp → Sys
  | MgrOp.create hn c => (createCharsetRule s hn c).2.1
  | MgrOp.remove hn => (removeCharsetRule s hn).2
  | MgrOp.initOp => initializeManager s
  | MgrOp.restore => (restoreSavedRules s).2

/-- All states visited while running a sequence of manager operations. -/
def mgrTrace (s : Sys) : List MgrOp → List Sys
  | [] => [s]
  | op :: ops => s :: mgrTrace (applyMgrOp s op) ops

lemma usedSubEngine_step (s : Sys) (op : MgrOp) (hs : usedSubEngine s) :
    usedSubEngine (applyMgrOp s op) := by
  cases op with
  | create hn c => exact usedSubEngine_create s hn c hs
  | remove hn => exact usedSubEngine_remove s hn hs
  | initOp => exact usedSubEngine_init s
  | restore => exact usedSubEngine_restore s

lemma mgrTrace_forall_usedSubEngine :
    ∀ (ops : List MgrOp) (s : Sys), usedSubEngine s →
      (mgrTrace s ops).Forall usedSubEngine := by
  intro ops
  induction ops with
  | nil =>
      intro s hs
      simpa [mgrTrace] using hs
  | cons op ops ih =>
      intro s hs
      rw [mgrTrace, List.forall_cons]
      exact ⟨hs, ih _ (usedSubEngine_step s op hs)⟩

/-- C8: starting from a freshly constructed manager (empty in-use set)
over any prior engine and store contents, every state reached by any
sequence of Rule Manager operations keeps the allocator's in-use
identifiers a subset of the identifiers installed in the engine. -/
theorem c8_used_ids_subset_of_engine (E : List DNRRule) (st : StoreState)
    (ops : List MgrOp) :
    (mgrTrace { engine := E, rm := rmInit, store := st } ops).Forall
      usedSubEngine := by
  apply mgrTrace_forall_usedSubEngine
  intro x hx
  simp [rmInit] at hx

/-- Decreasing measure for the collision recursion: engine identifiers not
yet passed by the counter. -/
def engFilterCard (s : Sys) : ℕ :=
  ((engineRuleIds s.engine).toFinset.filter
    (fun x => s.rm.ruleIdCounter ≤ x)).card

lemma afterRemove_counter (s : Sys) (hn : String) :
    (afterRemove s hn).rm.ruleIdCounter = s.rm.ruleIdCounter := by
  unfold afterRemove removeCharsetRule
  cases h : mapGet s.rm.activeRules hn <;> simp [h]

lemma afterRemove_engine_subset (s : Sys) (hn : String) :
    ∀ r ∈ (afterRemove s hn).engine, r ∈ s.engine := by
  unfold afterRemove removeCharsetRule
  cases h : mapGet s.rm.activeRules hn with
  | none => simp [h]
  | some ruleId =>
      simp only [h]
      intro r hr
      exact (List.mem_filter.mp hr).1

lemma afterRemove_of_no_active (s : Sys) (hn : String)
    (h : mapGet s.rm.activeRules hn = none) : afterRemove s hn = s := by
  unfold afterRemove removeCharsetRule
  rw [h]

lemma engFilterCard_afterRemove_le (s : Sys) (hn : String) :
    engFilterCard (afterRemove s hn) ≤ engFilterCard s := by
  unfold engFilterCard
  rw [afterRemove_counter]
  apply Finset.card_le_card
  apply Finset.filter_subset_filter
  intro x hx
  rcases mem_engineRuleIds_toFinset.mp hx with ⟨r, hr, hrid⟩
  exact mem_engineRuleIds_toFinset.mpr
    ⟨r, afterRemove_engine_subset s hn r hr, hrid⟩

lemma nextRid_mem_of_conflict (s : Sys) (hn : String)
    (hconf : (afterGen s hn).engine.any (fun r => r.id == nextRid s hn) = true) :
    nextRid s hn ∈ (engineRuleIds (afterRemove s hn).engine).toFinset := by
  rcases List.any_eq_true.mp hconf with ⟨r, hr, hrid⟩
  rw [afterGen_engine] at hr
  exact mem_engineRuleIds_toFinset.mpr ⟨r, hr, by simpa using hrid⟩

lemma engFilterCard_afterGen_lt (s : Sys) (hn : String)
    (hconf : (afterGen s hn).engine.any (fun r => r.id == nextRid s hn) = true) :
    engFilterCard (afterGen s hn) < engFilterCard (afterRemove s hn) := by
  unfold engFilterCard
  rw [afterGen_counter, afterGen_engine]
  have hge := nextRid_ge s hn
  have hmem : nextRid s hn ∈
      (engineRuleIds (afterRemove s hn).engine).toFinset.filter
        (fun x => (afterRemove s hn).rm.ruleIdCounter ≤ x) :=
    Finset.mem_filter.mpr ⟨nextRid_mem_of_conflict s hn hconf, hge⟩
  have hsub : (engineRuleIds (afterRemove s hn).engine).toFinset.filter
        (fun x => nextRid s hn + 1 ≤ x) ⊆
      ((engineRuleIds (afterRemove s hn).engine).toFinset.filter
        (fun x => (afterRemove s hn).rm.ruleIdCounter ≤ x)).erase (nextRid s hn) := by
    intro x hx
    rcases Finset.mem_filter.mp hx with ⟨hxb, hxle⟩
    refine Finset.mem_erase.mpr ⟨by omega, Finset.mem_filter.mpr ⟨hxb, by omega⟩⟩
  have h₁ := Finset.card_le_card hsub
  have h₂ := Finset.card_erase_of_mem hmem
  have h₃ : 1 ≤ ((engineRuleIds (afterRemove s hn).engine).toFinset.filter
      (fun x => (afterRemove s hn).rm.ruleIdCounter ≤ x)).card :=
    Finset.card_pos.mpr ⟨nextRid s hn, hmem⟩
  omega

lemma createCharsetRuleAux_succeeds (hn c : String) :
    ∀ (fuel : ℕ) (s : Sys), engFilterCard s < fuel →
      (createCharsetRuleAux hn c fuel s).1.isSome = true ∧
      (createCharsetRuleAux hn c fuel s).2.2 ≤ engFilterCard s := by
  intro fuel
  induction fuel with
  | zero => intro s h; exact absurd h (by omega)
  | succ f ih =>
      intro s h
      rw [createCharsetRuleAux_succ_eq]
      by_cases hconf :
          (afterGen s hn).engine.any (fun r => r.id == nextRid s hn) = true
      · rw [if_pos hconf]
        have hlt := engFilterCard_afterGen_lt s hn hconf
        have hle := engFilterCard_afterRemove_le s hn
        have hrec := ih (afterGen s hn) (by omega)
        refine ⟨hrec.1, ?_⟩
        show (createCharsetRuleAux hn c f (afterGen s hn)).2.2 + 1
          ≤ engFilterCard s
        have := hrec.2
        omega
      · rw [if_neg hconf]
        refine ⟨rfl, ?_⟩
        show (0 : ℕ) ≤ engFilterCard s
        omega

/-- C2 (amended): every `createCharsetRule` call terminates successfully;
identifier-collision retries are bounded only by the number of rules
installed in the engine (there is no fixed maximum retry count), and a
collision retry is never surfaced as a failure. -/
theorem c2_retries_bounded_by_engine_size (s : Sys) (hostname charset : String) :
    (createCharsetRule s hostname charset).1.isSome = true ∧
    (createCharsetRule s hostname charset).2.2 ≤ s.engine.length := by
  have hcard : engFilterCard s ≤ s.engine.length := by
    unfold engFilterCard
    have h₁ := Finset.card_filter_le (engineRuleIds s.engine).toFinset
      (fun x => s.rm.ruleIdCounter ≤ x)
    have h₂ := (engineRuleIds s.engine).toFinset_card_le
    have h₃ : (engineRuleIds s.engine).length = s.engine.length :=
      List.length_map _ _
    omega
  have h := createCharsetRuleAux_succeeds hostname charset
    (s.engine.length + 1) s (by omega)
  have h1 : (createCharsetRule s hostname charset).1
      = (createCharsetRuleAux hostname charset (s.engine.length + 1) s).1 := rfl
  have h2 : (createCharsetRule s hostname charset).2.2
      = (createCharsetRuleAux hostname charset (s.engine.length + 1) s).2.2 := rfl
  rw [h1, h2]
  exact ⟨h.1, by omega⟩

lemma createCharsetRuleAux_retries_ge (hn c : String) :
    ∀ (m fuel : ℕ) (s : Sys), m < fuel →
      s.rm.activeRules = [] →
      (∀ x ∈ s.rm.usedRuleIds, x < s.rm.ruleIdCounter) →
      (∀ i, i < m → s.rm.ruleIdCounter + i ∈ engineRuleIds s.engine) →
      m ≤ (createCharsetRuleAux hn c fuel s).2.2 := by
  intro m
  induction m with
  | zero => intro fuel s _ _ _ _; omega
  | succ m ih =>
      intro fuel s hfuel hact hused hids
      cases fuel with
      | zero => omega
      | succ f =>
          have hnoact : mapGet s.rm.activeRules hn = none := by
            rw [hact]; rfl
          have hrem : afterRemove s hn = s := afterRemove_of_no_active s hn hnoact
          have hcnot : s.rm.ruleIdCounter ∉ s.rm.usedRuleIds := by
            intro hmem
            have := hused _ hmem
            omega
          have hrid : nextRid s hn = s.rm.ruleIdCounter := by
            unfold nextRid
            rw [hrem]
            show skipUsed s.rm.usedRuleIds (s.rm.usedRuleIds.card + 1)
              s.rm.ruleIdCounter = s.rm.ruleIdCounter
            exact skipUsed_eq_of_not_mem _ _ _ hcnot
          have hmem0 : s.rm.ruleIdCounter ∈ engineRuleIds s.engine := by
            have := hids 0 (by omega)
            simpa using this
          rcases List.mem_map.mp hmem0 with ⟨r, hr, hrideq⟩
          have hconf : (afterGen s hn).engine.any
              (fun r => r.id == nextRid s hn) = true := by
            refine List.any_eq_true.mpr ⟨r, ?_, ?_⟩
            · rw [afterGen_engine, hrem]; exact hr
            · rw [hrid]
              simp [hrideq]
          rw [createCharsetRuleAux_succ_eq, if_pos hconf]
          show m + 1 ≤ (createCharsetRuleAux hn c f (afterGen s hn)).2.2 + 1
          have hcnt : (afterGen s hn).rm.ruleIdCounter
              = s.rm.ruleIdCounter + 1 := by
            rw [afterGen_counter, hrid]
          have hrec := ih f (afterGen s hn) (by omega)
            (by rw [afterGen_active, hrem, hact])
            (by
              intro x hx
              rw [afterGen_used, hrem, hrid] at hx
              rw [hcnt]
              rcases Finset.mem_insert.mp hx with hx | hx
              · omega
              · have := hused _ hx
                omega)
            (by
              intro i hi
              rw [hcnt]
              have hmem := hids (i + 1) (by omega)
              have heq : s.rm.ruleIdCounter + 1 + i
                  = s.rm.ruleIdCounter + (i + 1) := by omega
              rw [heq]
              have heng : (afterGen s hn).engine = s.engine := by
                rw [afterGen_engine, hrem]
              rw [heng]
              exact hmem)
          omega

/-- Empty persisted store. -/
def emptyStore : StoreState := { charsetSettings := [], activeRulesSnapshot := [] }

/-- A fresh manager facing an engine that already holds stale rules with
identifiers 1..n (installed by an earlier worker incarnation). -/
def staleSys (n : ℕ) : Sys :=
  { engine := (List.range n).map (fun i => buildRule (i + 1) "stale.example" "GBK")
    rm := rmInit
    store := emptyStore }

lemma staleSys_ids (n : ℕ) :
    engineRuleIds (staleSys n).engine = (List.range n).map (fun i => i + 1) := by
  unfold engineRuleIds staleSys
  rw [List.map_map]
  rfl

lemma staleSys_forces_retries :
    ∀ K : ℕ, K < (createCharsetRule (staleSys (K + 1)) "example.com" "GBK").2.2 := by
  intro K
  have hlen : (staleSys (K + 1)).engine.length = K + 1 := by
    simp [staleSys]
  have hids : ∀ i, i < K + 1 →
      (staleSys (K + 1)).rm.ruleIdCounter + i
        ∈ engineRuleIds (staleSys (K + 1)).engine := by
    intro i hi
    rw [staleSys_ids]
    refine List.mem_map.mpr ⟨i, List.mem_range.mpr hi, ?_⟩
    show i + 1 = (staleSys (K + 1)).rm.ruleIdCounter + i
    show i + 1 = 1 + i
    omega
  have h := createCharsetRuleAux_retries_ge "example.com" "GBK" (K + 1)
    ((staleSys (K + 1)).engine.length + 1) (staleSys (K + 1))
    (by omega) rfl
    (by intro x hx; simp [staleSys, rmInit] at hx) hids
  have heq : (createCharsetRule (staleSys (K + 1)) "example.com" "GBK").2.2
      = (createCharsetRuleAux "example.com" "GBK"
          ((staleSys (K + 1)).engine.length + 1) (staleSys (K + 1))).2.2 := rfl
  omega

/-- Fresh system: empty engine, fresh manager, empty store. -/
def sysInit : Sys := { engine := [], rm := rmInit, store := emptyStore }

/-- C7 counterexample: "KOI8-R" is not a supported charset label, yet the
inbound `updateCharset` message handler installs an engine rule for it,
persists it as the site's charset, and answers the caller with success —
the request is not rejected and mutation happens. -/
theorem c7_message_installs_unsupported_charset :
    "KOI8-R" ∉ SUPPORTED_CHARSETS ∧
    (handleUpdateCharsetMessage sysInit "example.com" "KOI8-R").2 = true ∧
    (handleUpdateCharsetMessage sysInit "example.com" "KOI8-R").1.engine
      = [buildRule 1 "example.com" "KOI8-R"] ∧
    mapGet ((handleUpdateCharsetMessage sysInit
        "example.com" "KOI8-R").1.store.charsetSettings)
      "example.com" = some "KOI8-R" := by
  refine ⟨by decide, rfl, rfl, rfl⟩

/-- C7 (amended): only the menu path validates the charset label — an
unsupported label there causes no mutation at all (though the handler
emits no failure signal, it merely does nothing); the message path
performs no validation: it installs and persists the unsupported charset
and reports success to the caller. -/
theorem c7_rejection_only_on_menu_path (s : Sys) (hostname charset : String)
    (hc : charset ∉ SUPPORTED_CHARSETS) :
    handleMenuCharsetClick s hostname charset = s ∧
    (handleUpdateCharsetMessage s hostname charset).2 = true ∧
    mapGet ((handleUpdateCharsetMessage s
        hostname charset).1.store.charsetSettings)
      hostname = some charset := by
  refine ⟨?_, rfl, ?_⟩
  · simp [handleMenuCharsetClick, hc]
  · show mapGet (saveCharsetForSite
        (createCharsetRule s hostname charset).2.1.store.charsetSettings
        hostname charset) hostname = some charset
    exact mapGet_mapSet_self _ _ _

/-- Witness for `c7_rejection_only_on_menu_path` at a concrete state. -/
theorem c7_rejection_only_on_menu_path_witness :
    handleMenuCharsetClick sysInit "b.com" "KOI8-R" = sysInit ∧
    (handleUpdateCharsetMessage sysInit "b.com" "KOI8-R").2 = true ∧
    mapGet ((handleUpdateCharsetMessage sysInit
        "b.com" "KOI8-R").1.store.charsetSettings)
      "b.com" = some "KOI8-R" :=
  c7_rejection_only_on_menu_path sysInit "b.com" "KOI8-R" (by decide)

/-- Modelled from the spec: the Declarative Rule Engine (an external
collaborator) matches a rule condition of the shape installed by this
system against a request authority — per the spec, "match = request
authority equals hostname", i.e. the filter is exactly the one built for
that authority. -/
def filterMatchesAuthority (urlFilter authority : String) : Bool :=
  urlFilter == mkUrlFilter authority

lemma mkUrlFilter_inj {a b : String} (h : mkUrlFilter a = mkUrlFilter b) :
    a = b := by
  unfold mkUrlFilter at h
  have hd : ("*://" ++ a ++ "/*").data = ("*://" ++ b ++ "/*").data :=
    congrArg String.data h
  simp only [String.data_append] at hd
  have hd2 : a.data ++ ['/', '*'] = b.data ++ ['/', '*'] := by
    have h1 : ['*', ':', '/', '/'] ++ (a.data ++ ['/', '*'])
        = ['*', ':', '/', '/'] ++ (b.data ++ ['/', '*']) := by
      simpa [List.append_assoc] using hd
    exact List.append_cancel_left h1
  have hd' : a.data = b.data := List.append_cancel_right hd2
  exact String.ext hd'

lemma createCharsetRuleAux_installed (hn c : String) :
    ∀ (fuel : ℕ) (s : Sys) (ruleId : ℕ),
      (createCharsetRuleAux hn c fuel s).1 = some ruleId →
      buildRule ruleId hn c ∈ (createCharsetRuleAux hn c fuel s).2.1.engine := by
  intro fuel
  induction fuel with
  | zero =>
      intro s ruleId h
      exact absurd h (by simp [createCharsetRuleAux])
  | succ f ih =>
      intro s ruleId h
      rw [createCharsetRuleAux_succ_eq] at h ⊢
      by_cases hconf :
          (afterGen s hn).engine.any (fun r => r.id == nextRid s hn) = true
      · rw [if_pos hconf] at h ⊢
        exact ih (afterGen s hn) ruleId h
      · rw [if_neg hconf] at h ⊢
        have hrid : nextRid s hn = ruleId := by
          have : some (nextRid s hn) = some ruleId := h
          exact Option.some.inj this
        rw [← hrid]
        simp

/-- C9: every rule the create operation reports installed is in the
engine and has: priority 1, resource types main_frame and sub_frame, an
action overwriting the Content-Type response header to exactly
"text/html; charset=L", and a url filter that (under the spec's engine
match semantics) matches exactly the requests whose authority equals the
hostname. -/
theorem c9_rule_shape (s : Sys) (hostname charset : String) (ruleId : ℕ)
    (hres : (createCharsetRule s hostname charset).1 = some ruleId) :
    buildRule ruleId hostname charset
        ∈ (createCharsetRule s hostname charset).2.1.engine ∧
    (buildRule ruleId hostname charset).priority = 1 ∧
    (buildRule ruleId hostname charset).condition.resourceTypes
      = [ResourceType.main_frame, ResourceType.sub_frame] ∧
    (buildRule ruleId hostname charset).action
      = { type := "modifyHeaders"
          responseHeaders :=
            [{ header := "Content-Type", operation := "set",
               value := "text/html; charset=" ++ charset }] } ∧
    (∀ authority,
      filterMatchesAuthority
          (buildRule ruleId hostname charset).condition.urlFilter authority = true
        ↔ authority = hostname) := by
  refine ⟨createCharsetRuleAux_installed hostname charset _ s ruleId hres,
    rfl, rfl, rfl, ?_⟩
  intro authority
  constructor
  · intro h
    have heq : mkUrlFilter hostname = mkUrlFilter authority := by
      have := (beq_iff_eq).mp h
      exact this
    exact (mkUrlFilter_inj heq).symm
  · intro h
    subst h
    simp [filterMatchesAuthority, buildRule]

/-- Witness for `c9_rule_shape`: a concrete create from the fresh state. -/
theorem c9_rule_shape_witness :
    buildRule 1 "example.com" "GBK"
        ∈ (createCharsetRule sysInit "example.com" "GBK").2.1.engine ∧
    (buildRule 1 "example.com" "GBK").priority = 1 ∧
    (buildRule 1 "example.com" "GBK").condition.resourceTypes
      = [ResourceType.main_frame, ResourceType.sub_frame] ∧
    (buildRule 1 "example.com" "GBK").action
      = { type := "modifyHeaders"
          responseHeaders :=
            [{ header := "Content-Type", operation := "set",
               value := "text/html; charset=" ++ "GBK" }] } ∧
    (∀ authority,
      filterMatchesAuthority
          (buildRule 1 "example.com" "GBK").condition.urlFilter authority = true
        ↔ authority = "example.com") :=
  c9_rule_shape sysInit "example.com" "GBK" 1 rfl

/-- States in which the manager's book-keeping matches the engine: engine
rules correspond one-to-one (in order) to the active-rule map entries,
hostnames and identifiers are duplicate-free, the in-use set is exactly
the set of active identifiers, and the counter is past every in-use id.
This holds for every state reached from `initialize()` (no stale rules). -/
def GoodState (s : Sys) : Prop :=
  List.Forall₂ (fun (r : DNRRule) (e : String × ℕ) =>
      ∃ c, r = buildRule e.2 e.1 c) s.engine s.rm.activeRules ∧
  (s.rm.activeRules.map Prod.fst).Nodup ∧
  s.rm.usedRuleIds = (s.rm.activeRules.map Prod.snd).toFinset ∧
  (∀ x ∈ s.rm.usedRuleIds, x < s.rm.ruleIdCounter)

lemma forall₂_exists_right {α β : Type} {R : α → β → Prop} :
    ∀ {l₁ : List α} {l₂ : List β}, List.Forall₂ R l₁ l₂ →
      ∀ a ∈ l₁, ∃ b ∈ l₂, R a b := by
  intro l₁ l₂ h
  induction h with
  | nil => intro a ha; simp at ha
  | cons hab _ ih =>
      intro a ha
      rcases List.mem_cons.mp ha with rfl | ha
      · exact ⟨_, List.mem_cons_self _ _, hab⟩
      · rcases ih a ha with ⟨b, hb, hr⟩
        exact ⟨b, List.mem_cons_of_mem _ hb, hr⟩

/-- C1: in a reconciled state (`GoodState`) holding an active rule for H
with charset C1, `createCharsetRule(H, C2)` first destroys the old rule
and leaves exactly one engine rule whose filter targets H — the new C2
rule — with the map pointing at the new identifier, the old identifier no
longer in the in-use set, and no engine rule carrying the old identifier. -/
theorem c1_replace_leaves_single_rule (s : Sys) (hn : String) (rid₀ : ℕ)
    (c₁ c₂ : String) (hg : GoodState s)
    (hact : mapGet s.rm.activeRules hn = some rid₀)
    (_hold : buildRule rid₀ hn c₁ ∈ s.engine) :
    ∃ rid, (createCharsetRule s hn c₂).1 = some rid ∧
      rid ≠ rid₀ ∧
      mapGet (createCharsetRule s hn c₂).2.1.rm.activeRules hn = some rid ∧
      ((createCharsetRule s hn c₂).2.1.engine.filter
          (fun r => r.condition.urlFilter == mkUrlFilter hn))
        = [buildRule rid hn c₂] ∧
      rid₀ ∉ (createCharsetRule s hn c₂).2.1.rm.usedRuleIds ∧
      (∀ r ∈ (createCharsetRule s hn c₂).2.1.engine, r.id ≠ rid₀) := by
  rcases hg with ⟨hF, hndf, husedeq, hbound⟩
  have hmemA : (hn, rid₀) ∈ s.rm.activeRules := mapGet_some_mem _ _ _ hact
  have hrid₀used : rid₀ ∈ s.rm.usedRuleIds := by
    rw [husedeq]
    exact List.mem_toFinset.mpr
      (List.mem_map.mpr ⟨(hn, rid₀), hmemA, rfl⟩)
  have hrid₀lt : rid₀ < s.rm.ruleIdCounter := hbound _ hrid₀used
  have hrem : afterRemove s hn =
      { engine := s.engine.filter (fun r => !(r.id == rid₀))
        rm := { ruleIdCounter := s.rm.ruleIdCounter
                activeRules := mapDelete s.rm.activeRules hn
                usedRuleIds := s.rm.usedRuleIds.erase rid₀ }
        store := { s.store with
          activeRulesSnapshot := mapDelete s.rm.activeRules hn } } := by
    unfold afterRemove removeCharsetRule
    rw [hact]
  have hfresh : nextRid s hn ∉ (afterRemove s hn).rm.usedRuleIds :=
    nextRid_fresh s hn
  have hge : s.rm.ruleIdCounter ≤ nextRid s hn := by
    have := nextRid_ge s hn
    rw [hrem] at this
    exact this
  have hne : nextRid s hn ≠ rid₀ := by omega
  have hnotused : nextRid s hn ∉ s.rm.usedRuleIds := by
    intro hmem
    apply hfresh
    rw [hrem]
    exact Finset.mem_erase.mpr ⟨hne, hmem⟩
  have hconf : ¬ ((afterGen s hn).engine.any
      (fun r => r.id == nextRid s hn) = true) := by
    intro hany
    rcases List.any_eq_true.mp hany with ⟨r, hr, hbeq⟩
    rw [afterGen_engine, hrem] at hr
    have hrE : r ∈ s.engine := (List.mem_filter.mp hr).1
    rcases forall₂_exists_right hF r hrE with ⟨e, heA, c, hrb⟩
    have hidmem : r.id ∈ s.rm.activeRules.map Prod.snd :=
      List.mem_map.mpr ⟨e, heA, by rw [hrb]; rfl⟩
    have : r.id ∈ s.rm.usedRuleIds := by
      rw [husedeq]
      exact List.mem_toFinset.mpr hidmem
    have hreq : r.id = nextRid s hn := by simpa using hbeq
    rw [hreq] at this
    exact hnotused this
  have hres : createCharsetRule s hn c₂ =
      (some (nextRid s hn),
        { engine := (afterGen s hn).engine ++ [buildRule (nextRid s hn) hn c₂]
          rm := { (afterGen s hn).rm with
                    activeRules :=
                      mapSet (afterGen s hn).rm.activeRules hn (nextRid s hn) }
          store := { (afterGen s hn).store with
                    activeRulesSnapshot :=
                      mapSet (afterGen s hn).rm.activeRules hn (nextRid s hn) } },
        0) := by
    show createCharsetRuleAux hn c₂ (s.engine.length + 1) s = _
    rw [createCharsetRuleAux_succ_eq, if_neg hconf]
  refine ⟨nextRid s hn, ?_, hne, ?_, ?_, ?_, ?_⟩
  · rw [hres]
  · rw [hres]
    exact mapGet_mapSet_self _ _ _
  · rw [hres]
    show ((afterGen s hn).engine ++ [buildRule (nextRid s hn) hn c₂]).filter
        (fun r => r.condition.urlFilter == mkUrlFilter hn)
      = [buildRule (nextRid s hn) hn c₂]
    rw [List.filter_append]
    have hleft : (afterGen s hn).engine.filter
        (fun r => r.condition.urlFilter == mkUrlFilter hn) = [] := by
      apply List.filter_eq_nil_iff.mpr
      intro r hr
      rw [afterGen_engine, hrem] at hr
      rcases List.mem_filter.mp hr with ⟨hrE, hpred⟩
      have hridne : r.id ≠ rid₀ := by
        intro hid
        simp [hid] at hpred
      rcases forall₂_exists_right hF r hrE with ⟨e, heA, c, hrb⟩
      intro hmatch
      have hfeq : mkUrlFilter e.1 = mkUrlFilter hn := by
        have : r.condition.urlFilter = mkUrlFilter hn := by simpa using hmatch
        rw [hrb] at this
        exact this
      have he1 : e.1 = hn := mkUrlFilter_inj hfeq
      have heA' : (hn, e.2) ∈ s.rm.activeRules := by
        have : e = (hn, e.2) := by
          cases e; simp_all
        rw [← this]
        exact heA
      have he2 : e.2 = rid₀ := mem_nodup_fst hndf heA' hmemA
      apply hridne
      rw [hrb, he2]
      rfl
    rw [hleft]
    have hmatchnew : (fun (r : DNRRule) =>
        r.condition.urlFilter == mkUrlFilter hn) (buildRule (nextRid s hn) hn c₂)
          = true := by
      simp [buildRule]
    simp [List.filter_cons, hmatchnew]
  · rw [hres]
    show rid₀ ∉ (afterGen s hn).rm.usedRuleIds
    rw [afterGen_used, hrem]
    intro hmem
    rcases Finset.mem_insert.mp hmem with hmem | hmem
    · exact hne hmem.symm
    · exact Finset.not_mem_erase _ _ hmem
  · rw [hres]
    intro r hr
    rcases List.mem_append.mp hr with hr | hr
    · rw [afterGen_engine, hrem] at hr
      rcases List.mem_filter.mp hr with ⟨_, hpred⟩
      intro hid
      simp [hid] at hpred
    · have : r = buildRule (nextRid s hn) hn c₂ := by simpa using hr
      rw [this]
      show nextRid s hn ≠ rid₀
      exact hne

/-- Witness for `c1_replace_leaves_single_rule`: replacing a.com's GBK
rule by UTF-8 in the concrete state `sysA`. -/
theorem c1_replace_leaves_single_rule_witness :
    ∃ rid, (createCharsetRule sysA "a.com" "UTF-8").1 = some rid ∧
      rid ≠ 1 ∧
      mapGet (createCharsetRule sysA "a.com" "UTF-8").2.1.rm.activeRules "a.com"
        = some rid ∧
      ((createCharsetRule sysA "a.com" "UTF-8").2.1.engine.filter
          (fun r => r.condition.urlFilter == mkUrlFilter "a.com"))
        = [buildRule rid "a.com" "UTF-8"] ∧
      1 ∉ (createCharsetRule sysA "a.com" "UTF-8").2.1.rm.usedRuleIds ∧
      (∀ r ∈ (createCharsetRule sysA "a.com" "UTF-8").2.1.engine, r.id ≠ 1) :=
  c1_replace_leaves_single_rule sysA "a.com" 1 "GBK" "UTF-8"
    ⟨List.Forall₂.cons ⟨"GBK", rfl⟩ List.Forall₂.nil,
      by decide, by decide, by decide⟩
    (by decide) (by decide)

/-- C2 counterexample: the retry count of the collision recursion is not
bounded by any maximum retry count — for every candidate bound K the
engine state `staleSys (K+1)` (stale rules with identifiers 1..K+1)
forces more than K identifier-collision retries, after which the
operation succeeds rather than surfacing a failure. -/
theorem c2_no_fixed_retry_bound :
    ¬ ∃ K : ℕ, ∀ s hostname charset,
        (createCharsetRule s hostname charset).2.2 ≤ K := by
  rintro ⟨K, hK⟩
  have h₁ := hK (staleSys (K + 1)) "example.com" "GBK"
  have h₂ := staleSys_forces_retries K
  omega
